import Mathlib

/-!
Verification development for the `passport` session package
(`src/session/session.go`).

The Go code is shallowly embedded as follows.

* Unix times (`time.Now().Unix()`, `IdleTime`) are `Int`; overflow of
  `int64` is irrelevant at these magnitudes and is not modelled.
* The Go map `sessions : map[string]*list.Element` is an association list
  `List (String × Nat)` from identifier to the allocation tag of a
  `container/list` element.  A `*list.Element` pointer is modelled by an
  allocation tag (`Nat`); the heap of all elements ever allocated is the
  association list `elems : List (Nat × SessionStore)` and the doubly
  linked list's order (front first) is `order : List Nat`.  `nextTag` is
  the allocator counter; dereferencing a tag always succeeds in Go, and
  every tag stored in `sessions` or `order` is allocated in `elems`, so
  the `getD dummyStore` fallback in dereferences is unreachable.
* `http.Request` cookie input is modelled by `Option String`: the value of
  the cookie under the manager's configured cookie name, `none` when
  `r.Cookie` returns an error (cookie absent).  Written response cookies
  are returned explicitly.  `r.AddCookie` (mutation of the request) has no
  observable effect on the manager and is not modelled.
* Go `panic` (assignment to a nil map / method call on a nil list, which
  happens after `Destroy()` sets `sessions` and `list` to nil) is the
  `Outcome.panicked` constructor.  `Destroy` is the only code that nils
  the two fields and it also sets `destroied`, so the model empties the
  two fields and branches on `destroied` where Go would fault on nil.
* Concrete `SessionStore` implementations are not part of the repository
  sources; the store behaviour behind the interface is modelled from the
  spec (see `newMemStore`, `SessionStore.activeTrue`, `SessionStore.Release`).
* The JSON round-trip in `NewSessionManager` is not modelled: the
  constructor takes the decoded configuration fields directly.
* `gc` runs one synchronous scan/evict loop at a single instant `now`,
  returning the final state, the computed `sleep`, and the list of evicted
  stores (the code logs each eviction, so this trace is observable); the
  trailing `time.AfterFunc` self-rescheduling is the `gcReschedule`
  observation (`some sleep` when a further run is scheduled).
-/

set_option autoImplicit false

namespace Passport

/-! ### Association-list primitives (Go maps, element heap) -/

def aLookup {κ α : Type} [DecidableEq κ] : List (κ × α) → κ → Option α
  | [], _ => none
  | (k, v) :: rest, k0 => if k = k0 then some v else aLookup rest k0

def aInsert {κ α : Type} [DecidableEq κ] : List (κ × α) → κ → α → List (κ × α)
  | [], k0, v0 => [(k0, v0)]
  | (k, v) :: rest, k0, v0 =>
      if k = k0 then (k0, v0) :: rest else (k, v) :: aInsert rest k0 v0

def aDelete {κ α : Type} [DecidableEq κ] : List (κ × α) → κ → List (κ × α)
  | [], _ => []
  | (k, v) :: rest, k0 => if k = k0 then rest else (k, v) :: aDelete rest k0

/-- Update the value stored under every occurrence of key `k0` (Go mutates
the single store object the element points to; keys are unique in all
reachable states, so "every" is "the one"). -/
def aUpdate {κ α : Type} [DecidableEq κ] (l : List (κ × α)) (k0 : κ) (f : α → α) :
    List (κ × α) :=
  l.map fun e => if e.1 = k0 then (e.1, f e.2) else e

/-! ### URL query escaping (`net/url`), on characters

Go operates on the bytes of the string; the model operates on characters,
which agrees with Go on ASCII data (session identifiers are hex strings). -/

def hexVal (c : Char) : Option Nat :=
  if 48 ≤ c.toNat ∧ c.toNat ≤ 57 then some (c.toNat - 48)
  else if 97 ≤ c.toNat ∧ c.toNat ≤ 102 then some (c.toNat - 87)
  else if 65 ≤ c.toNat ∧ c.toNat ≤ 70 then some (c.toNat - 55)
  else none

/-- `url.QueryUnescape`: `%XY` decodes a byte, `+` decodes to space,
a malformed escape is an error (`none`). -/
def unescapeChars : List Char → Option (List Char)
  | [] => some []
  | '%' :: a :: b :: rest =>
      match hexVal a, hexVal b with
      | some x, some y => (unescapeChars rest).map fun l => Char.ofNat (16 * x + y) :: l
      | _, _ => none
  | '%' :: _ => none
  | '+' :: rest => (unescapeChars rest).map fun l => ' ' :: l
  | c :: rest => (unescapeChars rest).map fun l => c :: l

def queryUnescape (s : String) : Option String :=
  (unescapeChars s.data).map fun l => String.mk l

def upperHexDigit (n : Nat) : Char :=
  if n < 10 then Char.ofNat (48 + n) else Char.ofNat (55 + n)

/-- `url.QueryEscape` on one character: unreserved characters kept, space
becomes `+`, anything else percent-encoded. -/
def queryEscapeChar (c : Char) : List Char :=
  if c.isAlphanum ∨ c = '-' ∨ c = '_' ∨ c = '.' ∨ c = '~' then [c]
  else if c = ' ' then ['+']
  else ['%', upperHexDigit (c.toNat / 16 % 16), upperHexDigit (c.toNat % 16)]

def queryEscape (s : String) : String :=
  String.mk (s.data.map queryEscapeChar).flatten

/-! ### Session store

The repository declares only the `SessionStore` interface; the concrete
store behaviour is modelled from the spec.  The key-value payload
(`Keys/Get/Set/Delete`) is not touched by any claim and is omitted. -/

structure SessionStore where
  id : String
  createTime : Int
  active : Int
  released : Bool
deriving Repr, DecidableEq

def dummyStore : SessionStore :=
  { id := "", createTime := 0, active := 0, released := false }

/-- `Id(sid)` with a non-empty argument: set the identifier. -/
def SessionStore.setId (s : SessionStore) (i : String) : SessionStore :=
  { s with id := i }

/-- Modelled from the spec: `Active(true)` atomically stamps the
last-active time to now. -/
def SessionStore.activeTrue (s : SessionStore) (now : Int) : SessionStore :=
  { s with active := now }

/-- Modelled from the spec: `Release()` is idempotent teardown; the model
records it in a flag. -/
def SessionStore.Release (s : SessionStore) : SessionStore :=
  { s with released := true }

/-- Modelled from the spec: a freshly constructed store has its creation
timestamp set at construction and its last-active time initialized to it. -/
def newMemStore (now : Int) : SessionStore :=
  { id := "", createTime := now, active := now, released := false }

/-! ### Store registry -/

/-- A registered factory; its behaviour is opaque to the manager
(concrete factories are not in the repository sources). -/
abbrev Factory := Unit

abbrev Registry := List (String × Factory)

inductive Outcome (α : Type) where
  | ok (val : α)
  | panicked (msg : String)
deriving Repr, DecidableEq

def Outcome.isPanic {α : Type} : Outcome α → Bool
  | .ok _ => false
  | .panicked _ => true

/-- `RegisterSessionStore`: panics on a nil factory or a duplicate name,
otherwise adds the factory under the name.  A nil Go function value is
`none`. -/
def RegisterSessionStore (stores : Registry) (name : String) (one : Option Factory) :
    Outcome Registry :=
  match one with
  | none => .panicked "Register SessionStore nil"
  | some f =>
      if (aLookup stores name).isSome then
        .panicked ("Register SessionStore duplicate for " ++ name)
      else
        .ok (aInsert stores name f)

/-- `newSessionStore`: look the type name up in the registry; invoke the
factory (modelled from the spec: a fresh store) or fail.  The opaque
`StoreConfig` blob is passed through unmodified and not modelled. -/
def newSessionStore (stores : Registry) (typeName : String) (now : Int) :
    Except String SessionStore :=
  if (aLookup stores typeName).isSome then .ok (newMemStore now)
  else .error ("No SessionManager types " ++ typeName)

/-! ### Cookies -/

structure Cookie where
  name : String
  value : String
  path : String
  domain : String
  maxAge : Int
  httpOnly : Bool
  /-- whether the `Expires` attribute is set (`time.Now()` on logout). -/
  hasExpires : Bool
deriving Repr, DecidableEq

/-! ### Session manager state -/

structure SessionManager where
  Domain : String
  StoreType : String
  CookieName : String
  IdleTime : Int
  CookieExpire : Int
  /-- `sessions map[string]*list.Element`: identifier to element tag. -/
  sessions : List (String × Nat)
  /-- the heap of `container/list` elements ever allocated: tag to store. -/
  elems : List (Nat × SessionStore)
  /-- the recency list order, front (least recently active) first. -/
  order : List Nat
  /-- allocator for element tags. -/
  nextTag : Nat
  destroied : Bool
deriving Repr, DecidableEq

def newSessionManager (domain storeType cookieName : String)
    (idleTime : Int) (cookieExpire : Int) : SessionManager :=
  { Domain := domain, StoreType := storeType, CookieName := cookieName,
    IdleTime := idleTime, CookieExpire := cookieExpire,
    sessions := [], elems := [], order := [], nextTag := 0, destroied := false }

/-- `session.Active(true)` followed by `p.list.MoveToBack(sess)` on the
element with tag `tag`.  `MoveToBack` moves the element to the back when it
is in the list and is a no-op otherwise. -/
def touch (p : SessionManager) (tag : Nat) (now : Int) : SessionManager :=
  { p with
    elems := aUpdate p.elems tag (fun s => s.activeTrue now),
    order := if tag ∈ p.order then p.order.erase tag ++ [tag] else p.order }

/-- `p.sessions[sid] = p.list.PushBack(session)`: allocate a fresh element
holding `s`, append it at the back, index it under `sid`. -/
def insertSession (p : SessionManager) (sid : String) (s : SessionStore) :
    SessionManager :=
  { p with
    elems := p.elems ++ [(p.nextTag, s)],
    order := p.order ++ [p.nextTag],
    sessions := aInsert p.sessions sid p.nextTag,
    nextTag := p.nextTag + 1 }

/-- `session.Value.(SessionStore).Release()` on the element with tag `tag`. -/
def releaseAt (p : SessionManager) (tag : Nat) : SessionManager :=
  { p with elems := aUpdate p.elems tag SessionStore.Release }

/-! ### Manager operations -/

/-- The no-cookie branch of the resolution: the caller-supplied identifier
when non-empty, else the generated identifier (entropy failure is an
error); either way a response cookie is to be written. -/
def resolveFallback (sessionid : String) (genId : Option String) :
    (String × Bool) ⊕ String :=
  if sessionid = "" then
    match genId with
    | some g => .inl (g, true)
    | none => .inr "Could not successfully read from the system CSPRNG."
  else .inl (sessionid, true)

/-- The identifier-resolution prefix of `GetSession`: if the request
carries a cookie with a non-empty value, URL-unescape it (an unescape error
is returned); otherwise fall back to `resolveFallback` and record that a
response cookie must be written.  Result: `.inl (sid, writeCookie)` or
`.inr error`. -/
def resolveSid (reqCookie : Option String) (sessionid : String)
    (genId : Option String) : (String × Bool) ⊕ String :=
  match reqCookie with
  | none => resolveFallback sessionid genId
  | some v =>
      if v = "" then resolveFallback sessionid genId
      else
        match queryUnescape v with
        | some u => .inl (u, false)
        | none => .inr "invalid URL escape"

structure GetSessionRes where
  session : Option SessionStore
  err : Option String
  m : SessionManager
  /-- cookies written to the response via `http.SetCookie`. -/
  written : List Cookie
deriving Repr, DecidableEq

/-- The response cookie written for a new session. -/
def newSessionCookie (p : SessionManager) (sid : String) : Cookie :=
  { name := p.CookieName, value := queryEscape sid, path := "/",
    domain := p.Domain,
    maxAge := if p.CookieExpire ≥ 0 then p.CookieExpire else 0,
    httpOnly := false, hasExpires := false }

/-- `(p *SessionManager) GetSession`.  `reqCookie` is the request's cookie
value under `p.CookieName` (`none` if absent), `sessionid` the caller-
supplied identifier, `genId` the CSPRNG result, `now` the current Unix
time.  After `Destroy()` the Go map/list are nil and the insertion
`p.sessions[sid] = p.list.PushBack(session)` panics. -/
def GetSession (reg : Registry) (p : SessionManager) (reqCookie : Option String)
    (sessionid : String) (genId : Option String) (now : Int) :
    Outcome GetSessionRes :=
  match resolveSid reqCookie sessionid genId with
  | .inr e => .ok { session := none, err := some e, m := p, written := [] }
  | .inl (sid, writeCookie) =>
      match aLookup p.sessions sid with
      | some tag =>
          let s := ((aLookup p.elems tag).getD dummyStore).activeTrue now
          .ok { session := some s, err := none, m := touch p tag now, written := [] }
      | none =>
          match newSessionStore reg p.StoreType now with
          | .error e => .ok { session := none, err := some e, m := p, written := [] }
          | .ok s0 =>
              let s := s0.setId sid
              if p.destroied then .panicked "assignment to entry in nil map"
              else
                .ok { session := some s, err := none,
                      m := insertSession p sid s,
                      written := if writeCookie then [newSessionCookie p sid] else [] }

/-- The clearing cookie written by `SessionDestroy` (empty value, `Expires`
set to now, `MaxAge = -1`, `HttpOnly`). -/
def clearingCookie (p : SessionManager) : Cookie :=
  { name := p.CookieName, value := "", path := "/", domain := "",
    maxAge := -1, httpOnly := true, hasExpires := true }

/-- `(p *SessionManager) SessionDestroy`: absent or empty cookie is a
no-op returning `""`; otherwise the unescaped identifier is returned (Go
discards the unescape error, leaving `""`), the matching session's store
is released when present, and a clearing cookie is written
unconditionally.  Returns (identifier, manager, written cookies). -/
def SessionDestroy (p : SessionManager) (reqCookie : Option String) :
    String × SessionManager × List Cookie :=
  match reqCookie with
  | none => ("", p, [])
  | some v =>
      if v = "" then ("", p, [])
      else
        let sessionid := (queryUnescape v).getD ""
        let p1 :=
          match aLookup p.sessions sessionid with
          | some tag => releaseAt p tag
          | none => p
        (sessionid, p1, [clearingCookie p])

structure ByIdRes where
  session : Option SessionStore
  err : Option String
  m : SessionManager
deriving Repr, DecidableEq

/-- `(p *SessionManager) GetSessionById`. -/
def GetSessionById (reg : Registry) (p : SessionManager) (sid : String)
    (now : Int) : Outcome ByIdRes :=
  if sid = "" then .ok { session := none, err := none, m := p }
  else
    match aLookup p.sessions sid with
    | some tag =>
        let s := ((aLookup p.elems tag).getD dummyStore).activeTrue now
        .ok { session := some s, err := none, m := touch p tag now }
    | none =>
        match newSessionStore reg p.StoreType now with
        | .error e => .ok { session := none, err := some e, m := p }
        | .ok s0 =>
            let s := s0.setId sid
            if p.destroied then .panicked "assignment to entry in nil map"
            else .ok { session := some s, err := none, m := insertSession p sid s }

/-- `(p *SessionManager) SessionDestroyById`: release the matching store,
touch nothing else. -/
def SessionDestroyById (p : SessionManager) (sid : String) : SessionManager :=
  match aLookup p.sessions sid with
  | some tag => releaseAt p tag
  | none => p

/-- `(p *SessionManager) SessionUpdate`: refresh the last-active time and
move to back when present, otherwise a no-op. -/
def SessionUpdate (p : SessionManager) (sid : String) (now : Int) :
    SessionManager :=
  match aLookup p.sessions sid with
  | some tag => touch p tag now
  | none => p

/-- `(p *SessionManager) Destroy`: nils `sessions` and `list` and sets the
flag (the model empties the two fields; `destroied` records their
nil-ness for the write paths, which panic in Go). -/
def Destroy (p : SessionManager) : SessionManager :=
  { p with sessions := [], order := [], destroied := true }

/-! ### The background reclamation loop -/

structure GcResult where
  m : SessionManager
  sleep : Int
  /-- the stores evicted by this run, in eviction order (each one is
  logged and released by the code). -/
  released : List SessionStore
deriving Repr, DecidableEq

/-- One synchronous run of the scan/evict loop of `gc` at instant `now`:
stop on a destroyed manager or an empty list (`sleep` stays at its initial
value 10); sleep until the front entry's expiry when it is still in the
future; otherwise release the front store (after the optional pre-release
callback, which has no effect on manager state), delete its identifier
from the map, remove the element, and rescan. -/
def gcRun (p : SessionManager) (now : Int) : GcResult :=
  if p.destroied then { m := p, sleep := 10, released := [] }
  else
    match h : p.order with
    | [] => { m := p, sleep := 10, released := [] }
    | tag :: rest =>
        let s := (aLookup p.elems tag).getD dummyStore
        if s.active + p.IdleTime > now then
          { m := p, sleep := s.active + p.IdleTime - now, released := [] }
        else
          let r := gcRun
            { p with
              elems := aUpdate p.elems tag SessionStore.Release,
              sessions := aDelete p.sessions s.id,
              order := rest } now
          { m := r.m, sleep := r.sleep, released := s :: r.released }
termination_by p.order.length
decreasing_by simp [h]

/-- The trailing `time.AfterFunc(sleep, p.gc)`: a further gc run is
scheduled after `sleep` seconds unless the manager is destroyed. -/
def gcReschedule (p : SessionManager) (now : Int) : Option Int :=
  let r := gcRun p now
  if r.m.destroied then none else some r.sleep

/-! ### Derived views of the manager state -/

/-- The key set of the identifier map. -/
def mapKeys (p : SessionManager) : List String :=
  p.sessions.map Prod.fst

/-- Dereference an element tag (always succeeds in Go; the default is
unreachable for allocated tags). -/
def storeAt (p : SessionManager) (tag : Nat) : SessionStore :=
  (aLookup p.elems tag).getD dummyStore

/-- The identifiers of the stores held by the recency list, front first. -/
def listIds (p : SessionManager) : List String :=
  p.order.map fun t => (storeAt p t).id

/-- The last-active times of the stores along the recency list. -/
def actives (p : SessionManager) : List Int :=
  p.order.map fun t => (storeAt p t).active

/-- The back (most recently touched) store of the recency list. -/
def backStore (p : SessionManager) : Option SessionStore :=
  p.order.getLast?.bind (aLookup p.elems)

/-! ### The structural invariant of a manager state -/

/-- Structural well-formedness of a manager state: identifiers are unique,
the recency list holds exactly the elements indexed by the map (as tags),
every indexed tag dereferences to a store carrying that identifier, and
all allocated tags are below the allocator counter. -/
structure Inv (p : SessionManager) : Prop where
  keysNodup : (p.sessions.map Prod.fst).Nodup
  orderNodup : p.order.Nodup
  tagsPerm : (p.sessions.map Prod.snd).Perm p.order
  elemKeysNodup : (p.elems.map Prod.fst).Nodup
  tagStore : ∀ e ∈ p.sessions, ∃ s, aLookup p.elems e.2 = some s ∧ s.id = e.1
  mapTagsLt : ∀ t ∈ p.sessions.map Prod.snd, t < p.nextTag
  elemTagsLt : ∀ t ∈ p.elems.map Prod.fst, t < p.nextTag

/-! ### Reachability -/

/-- One operation of the manager interface performed at time `now`
(successful, i.e. non-panicking, runs only: a Go panic crashes the program
and yields no successor state). -/
inductive Step (reg : Registry) : SessionManager → Int → SessionManager → Prop where
  | getSession {p : SessionManager} {rc : Option String} {sa : String}
      {gid : Option String} {now : Int} {r : GetSessionRes}
      (h : GetSession reg p rc sa gid now = .ok r) : Step reg p now r.m
  | getSessionById {p : SessionManager} {sid : String} {now : Int} {res : ByIdRes}
      (h : GetSessionById reg p sid now = .ok res) : Step reg p now res.m
  | sessionUpdate (p : SessionManager) (sid : String) (now : Int) :
      Step reg p now (SessionUpdate p sid now)
  | sessionDestroy (p : SessionManager) (rc : Option String) (now : Int) :
      Step reg p now (SessionDestroy p rc).2.1
  | sessionDestroyById (p : SessionManager) (sid : String) (now : Int) :
      Step reg p now (SessionDestroyById p sid)
  | gcStep (p : SessionManager) (now : Int) : Step reg p now (gcRun p now).m
  | destroy (p : SessionManager) (now : Int) : Step reg p now (Destroy p)

/-- States reachable from `init` by any sequence of manager operations. -/
inductive Reach (reg : Registry) (init : SessionManager) : SessionManager → Prop where
  | refl : Reach reg init init
  | step {p : SessionManager} {now : Int} {q : SessionManager}
      (hr : Reach reg init p) (hs : Step reg p now q) : Reach reg init q


/-- The recency list is sorted by ascending last-active time and every
last-active time is at most `t` (the time of the last completed
operation). -/
def SortedBound (p : SessionManager) (t : Int) : Prop :=
  List.Chain' (· ≤ ·) (actives p) ∧ ∀ a ∈ actives p, a ≤ t

/-- Timed reachability: states reachable from `init` starting at time
`t0` by operations performed at nondecreasing times (the wall clock
`time.Now()` never goes backwards). -/
inductive ReachT (reg : Registry) (init : SessionManager) (t0 : Int) :
    SessionManager → Int → Prop where
  | refl : ReachT reg init t0 init t0
  | step {p : SessionManager} {t now : Int} {q : SessionManager}
      (hr : ReachT reg init t0 p t) (hle : t ≤ now) (hs : Step reg p now q) :
      ReachT reg init t0 q now

/-! ### Concrete fixtures used by the witnesses -/

def regMem : Registry := [("mem", ())]

def mgrW0 : SessionManager := newSessionManager "d" "mem" "sid" 60 (-1)

def storeW1 : SessionStore :=
  { id := "abc", createTime := 100, active := 100, released := false }

/-- `mgrW0` after `GetSessionById "abc"` at time 100. -/
def mgrW1 : SessionManager :=
  { mgrW0 with
    sessions := [("abc", 0)],
    elems := [(0, storeW1)],
    order := [0],
    nextTag := 1 }

/-! ### Association-list lemmas -/

section AssocLemmas

variable {κ α : Type} [DecidableEq κ]

theorem aLookup_eq_none {l : List (κ × α)} {k : κ} :
    aLookup l k = none ↔ k ∉ l.map Prod.fst := by
  induction l with
  | nil => simp [aLookup]
  | cons e rest ih =>
      obtain ⟨k1, v1⟩ := e
      simp only [aLookup, List.map_cons, List.mem_cons]
      by_cases h : k1 = k
      · subst h; simp
      · rw [if_neg h, ih]
        constructor
        · intro hnk hc
          rcases hc with hc | hc
          · exact h hc.symm
          · exact hnk hc
        · intro hnc hk2
          exact hnc (Or.inr hk2)

theorem aLookup_mem {l : List (κ × α)} {k : κ} {v : α}
    (h : aLookup l k = some v) : (k, v) ∈ l := by
  induction l with
  | nil => simp [aLookup] at h
  | cons e rest ih =>
      obtain ⟨k1, v1⟩ := e
      by_cases hk : k1 = k
      · subst hk
        simp [aLookup] at h
        simp [h]
      · simp [aLookup, hk] at h
        exact List.mem_cons_of_mem _ (ih h)

theorem aLookup_isSome {l : List (κ × α)} {k : κ} :
    (aLookup l k).isSome = true ↔ k ∈ l.map Prod.fst := by
  rcases h : aLookup l k with _ | v
  · simp only [Option.isSome_none, Bool.false_eq_true, false_iff]
    exact aLookup_eq_none.mp h
  · simp only [Option.isSome_some, true_iff]
    exact List.mem_map_of_mem Prod.fst (aLookup_mem h)

theorem aLookup_append_left {l1 l2 : List (κ × α)} {k : κ} {v : α}
    (h : aLookup l1 k = some v) : aLookup (l1 ++ l2) k = some v := by
  induction l1 with
  | nil => simp [aLookup] at h
  | cons e rest ih =>
      obtain ⟨k1, v1⟩ := e
      by_cases hk : k1 = k <;> simp [aLookup, hk] at h ⊢ <;> simp_all

theorem aLookup_append_right {l1 l2 : List (κ × α)} {k : κ}
    (h : aLookup l1 k = none) : aLookup (l1 ++ l2) k = aLookup l2 k := by
  induction l1 with
  | nil => simp
  | cons e rest ih =>
      obtain ⟨k1, v1⟩ := e
      by_cases hk : k1 = k <;> simp [aLookup, hk] at h ⊢ <;> simp_all

theorem aInsert_of_none {l : List (κ × α)} {k : κ} (v : α)
    (h : aLookup l k = none) : aInsert l k v = l ++ [(k, v)] := by
  induction l with
  | nil => simp [aInsert]
  | cons e rest ih =>
      obtain ⟨k1, v1⟩ := e
      simp only [aLookup] at h
      by_cases hk : k1 = k
      · rw [if_pos hk] at h; exact absurd h (by simp)
      · rw [if_neg hk] at h
        simp [aInsert, hk, ih h]

theorem aUpdate_keys (l : List (κ × α)) (k : κ) (f : α → α) :
    (aUpdate l k f).map Prod.fst = l.map Prod.fst := by
  induction l with
  | nil => rfl
  | cons e rest ih =>
      obtain ⟨k1, v1⟩ := e
      by_cases hk : k1 = k <;> simp [aUpdate, hk] at ih ⊢ <;> exact ih

theorem aUpdate_cons (k1 : κ) (v1 : α) (rest : List (κ × α)) (k0 : κ) (f : α → α) :
    aUpdate ((k1, v1) :: rest) k0 f =
      (if k1 = k0 then (k1, f v1) else (k1, v1)) :: aUpdate rest k0 f := by
  simp only [aUpdate, List.map_cons]

theorem aLookup_aUpdate_eq (l : List (κ × α)) (k0 : κ) (f : α → α) :
    aLookup (aUpdate l k0 f) k0 = (aLookup l k0).map f := by
  induction l with
  | nil => simp [aUpdate, aLookup]
  | cons e rest ih =>
      obtain ⟨k1, v1⟩ := e
      rw [aUpdate_cons]
      by_cases h : k1 = k0
      · subst h
        rw [if_pos rfl]
        simp [aLookup]
      · rw [if_neg h]
        simp only [aLookup, if_neg h]
        exact ih

theorem aLookup_aUpdate_ne (l : List (κ × α)) {k0 k : κ} (hne : k ≠ k0)
    (f : α → α) : aLookup (aUpdate l k0 f) k = aLookup l k := by
  induction l with
  | nil => simp [aUpdate, aLookup]
  | cons e rest ih =>
      obtain ⟨k1, v1⟩ := e
      rw [aUpdate_cons]
      by_cases h : k1 = k0
      · subst h
        have hk : ¬k1 = k := fun hc => hne (hc.symm)
        rw [if_pos rfl]
        simp only [aLookup, if_neg hk]
        exact ih
      · rw [if_neg h]
        simp only [aLookup]
        split
        · rfl
        · exact ih

theorem aDelete_keys (l : List (κ × α)) (k : κ) :
    (aDelete l k).map Prod.fst = (l.map Prod.fst).erase k := by
  induction l with
  | nil => rfl
  | cons e rest ih =>
      obtain ⟨k1, v1⟩ := e
      by_cases hk : k1 = k
      · subst hk; simp [aDelete, List.erase_cons]
      · simp [aDelete, hk, List.erase_cons, ih]

theorem aDelete_mem {l : List (κ × α)} {k : κ} {e : κ × α}
    (h : e ∈ aDelete l k) : e ∈ l := by
  induction l with
  | nil => simp [aDelete] at h
  | cons e1 rest ih =>
      obtain ⟨k1, v1⟩ := e1
      by_cases hk : k1 = k <;> simp [aDelete, hk] at h
      · simp [h]
      · rcases h with h | h
        · simp [h]
        · exact List.mem_cons_of_mem _ (ih h)

theorem aDelete_snd_perm {l : List (κ × α)} {k : κ} {v : α}
    (hnd : (l.map Prod.fst).Nodup) (hmem : (k, v) ∈ l) :
    (l.map Prod.snd).Perm (v :: (aDelete l k).map Prod.snd) := by
  induction l with
  | nil => simp at hmem
  | cons e rest ih =>
      obtain ⟨k1, v1⟩ := e
      simp only [List.map_cons, List.nodup_cons] at hnd
      by_cases hk : k1 = k
      · subst hk
        have hv : v1 = v := by
          rcases List.mem_cons.mp hmem with h | h
          · exact ((Prod.mk.injEq _ _ _ _).mp h.symm).2
          · exact absurd (List.mem_map_of_mem Prod.fst h) hnd.1
        subst hv
        simp [aDelete]
      · have hmem2 : (k, v) ∈ rest := by
          rcases List.mem_cons.mp hmem with h | h
          · exact absurd (congrArg Prod.fst h).symm hk
          · exact h
        have hrest := ih hnd.2 hmem2
        simp only [aDelete, if_neg hk, List.map_cons]
        exact (hrest.cons v1).trans (List.Perm.swap v v1 _)

end AssocLemmas

theorem nodup_concat {β : Type} {l : List β} {a : β} :
    (l ++ [a]).Nodup ↔ a ∉ l ∧ l.Nodup := by
  rw [(List.perm_append_singleton a l).nodup_iff, List.nodup_cons]

theorem Inv.orderTagsLt {p : SessionManager} (h : Inv p) :
    ∀ t ∈ p.order, t < p.nextTag :=
  fun t ht => h.mapTagsLt t (h.tagsPerm.mem_iff.mpr ht)

/-- Every tag in the recency list is indexed by some identifier whose
store it dereferences to. -/
theorem Inv.deref {p : SessionManager} (h : Inv p) {tag : Nat}
    (ht : tag ∈ p.order) :
    ∃ i s, (i, tag) ∈ p.sessions ∧ aLookup p.elems tag = some s ∧ s.id = i := by
  have hmem : tag ∈ p.sessions.map Prod.snd := h.tagsPerm.mem_iff.mpr ht
  obtain ⟨e, he, hesnd⟩ := List.mem_map.mp hmem
  obtain ⟨s, hs, hid⟩ := h.tagStore e he
  refine ⟨e.1, s, ?_, ?_, hid⟩
  · rw [← hesnd]; exact he
  · rw [← hesnd]; exact hs

theorem inv_new (domain storeType cookieName : String) (idleTime cookieExpire : Int) :
    Inv (newSessionManager domain storeType cookieName idleTime cookieExpire) := by
  constructor <;> simp [newSessionManager]

theorem inv_touch {p : SessionManager} (h : Inv p) (tag : Nat) (now : Int) :
    Inv (touch p tag now) := by
  have hperm : (touch p tag now).order.Perm p.order := by
    simp only [touch]
    split
    · exact (List.perm_append_singleton _ _).trans
        (List.perm_cons_erase (by assumption)).symm
    · exact List.Perm.refl _
  constructor
  · exact h.keysNodup
  · exact hperm.nodup_iff.mpr h.orderNodup
  · exact h.tagsPerm.trans hperm.symm
  · simpa only [touch, aUpdate_keys] using h.elemKeysNodup
  · intro e he
    obtain ⟨s, hs, hid⟩ := h.tagStore e he
    by_cases het : e.2 = tag
    · rw [het] at hs
      refine ⟨s.activeTrue now, ?_, hid⟩
      simp [touch, het, aLookup_aUpdate_eq, hs]
    · exact ⟨s, by simpa only [touch, aLookup_aUpdate_ne _ het] using hs, hid⟩
  · exact h.mapTagsLt
  · simpa only [touch, aUpdate_keys] using h.elemTagsLt

theorem inv_insert {p : SessionManager} (h : Inv p) {sid : String}
    {s : SessionStore} (hnone : aLookup p.sessions sid = none)
    (hid : s.id = sid) : Inv (insertSession p sid s) := by
  have hsid : sid ∉ p.sessions.map Prod.fst := aLookup_eq_none.mp hnone
  have hnt_order : p.nextTag ∉ p.order :=
    fun hc => lt_irrefl _ (h.orderTagsLt _ hc)
  have hnt_elems : p.nextTag ∉ p.elems.map Prod.fst :=
    fun hc => lt_irrefl _ (h.elemTagsLt _ hc)
  have hsess : (insertSession p sid s).sessions = p.sessions ++ [(sid, p.nextTag)] := by
    simp [insertSession, aInsert_of_none _ hnone]
  constructor
  · rw [hsess]
    simp only [List.map_append, List.map_cons, List.map_nil]
    exact nodup_concat.mpr ⟨hsid, h.keysNodup⟩
  · simp only [insertSession]
    exact nodup_concat.mpr ⟨hnt_order, h.orderNodup⟩
  · rw [hsess]
    simp only [insertSession, List.map_append, List.map_cons, List.map_nil]
    exact h.tagsPerm.append_right _
  · simp only [insertSession, List.map_append, List.map_cons, List.map_nil]
    exact nodup_concat.mpr ⟨hnt_elems, h.elemKeysNodup⟩
  · rw [hsess]
    intro e he
    rcases List.mem_append.mp he with he | he
    · obtain ⟨s0, hs0, hid0⟩ := h.tagStore e he
      exact ⟨s0, aLookup_append_left hs0, hid0⟩
    · have : e = (sid, p.nextTag) := by simpa using he
      subst this
      refine ⟨s, ?_, hid⟩
      rw [show (insertSession p sid s).elems = p.elems ++ [(p.nextTag, s)] from rfl]
      rw [aLookup_append_right (aLookup_eq_none.mpr hnt_elems)]
      simp [aLookup]
  · rw [hsess]
    intro t ht
    have hnt : (insertSession p sid s).nextTag = p.nextTag + 1 := rfl
    simp only [List.map_append, List.map_cons, List.map_nil, List.mem_append,
      List.mem_cons, List.not_mem_nil, or_false] at ht
    rw [hnt]
    rcases ht with ht | ht
    · exact lt_trans (h.mapTagsLt t ht) (by omega)
    · omega
  · intro t ht
    have hnt : (insertSession p sid s).nextTag = p.nextTag + 1 := rfl
    have helems : (insertSession p sid s).elems = p.elems ++ [(p.nextTag, s)] := rfl
    rw [helems] at ht
    simp only [List.map_append, List.map_cons, List.map_nil, List.mem_append,
      List.mem_cons, List.not_mem_nil, or_false] at ht
    rw [hnt]
    rcases ht with ht | ht
    · exact lt_trans (h.elemTagsLt t ht) (by omega)
    · omega

theorem inv_release {p : SessionManager} (h : Inv p) (tag : Nat) :
    Inv (releaseAt p tag) := by
  constructor
  · exact h.keysNodup
  · exact h.orderNodup
  · exact h.tagsPerm
  · simpa only [releaseAt, aUpdate_keys] using h.elemKeysNodup
  · intro e he
    obtain ⟨s, hs, hid⟩ := h.tagStore e he
    by_cases het : e.2 = tag
    · rw [het] at hs
      refine ⟨s.Release, ?_, hid⟩
      simp [releaseAt, het, aLookup_aUpdate_eq, hs]
    · exact ⟨s, by simpa only [releaseAt, aLookup_aUpdate_ne _ het] using hs, hid⟩
  · exact h.mapTagsLt
  · simpa only [releaseAt, aUpdate_keys] using h.elemTagsLt

theorem inv_destroy {p : SessionManager} (h : Inv p) : Inv (Destroy p) := by
  constructor
  · simp [Destroy]
  · simp [Destroy]
  · simp [Destroy]
  · exact h.elemKeysNodup
  · simp [Destroy]
  · simp [Destroy]
  · exact h.elemTagsLt

/-- The state produced by one eviction iteration of `gcRun`. -/
theorem inv_evict {p : SessionManager} (h : Inv p) {tag : Nat} {rest : List Nat}
    (ho : p.order = tag :: rest) :
    Inv { p with
          elems := aUpdate p.elems tag SessionStore.Release,
          sessions := aDelete p.sessions ((aLookup p.elems tag).getD dummyStore).id,
          order := rest } := by
  have htag : tag ∈ p.order := by rw [ho]; exact List.mem_cons_self _ _
  obtain ⟨i, s, hmem, hs, hid⟩ := h.deref htag
  have hfront : ((aLookup p.elems tag).getD dummyStore).id = i := by
    rw [hs]; exact hid
  rw [hfront]
  have hdel : aDelete p.sessions i = aDelete p.sessions i := rfl
  have hsndperm := aDelete_snd_perm h.keysNodup hmem
  have horder_nodup : (tag :: rest).Nodup := ho ▸ h.orderNodup
  constructor
  · simp only [aDelete_keys]
    exact h.keysNodup.erase _
  · exact (List.nodup_cons.mp horder_nodup).2
  · have h1 : (tag :: (aDelete p.sessions i).map Prod.snd).Perm (tag :: rest) :=
      hsndperm.symm.trans (h.tagsPerm.trans (by rw [ho]))
    exact h1.cons_inv
  · simpa only [aUpdate_keys] using h.elemKeysNodup
  · intro e he
    have he0 : e ∈ p.sessions := aDelete_mem he
    obtain ⟨s0, hs0, hid0⟩ := h.tagStore e he0
    by_cases het : e.2 = tag
    · rw [het] at hs0
      refine ⟨s0.Release, ?_, hid0⟩
      simp [het, aLookup_aUpdate_eq, hs0]
    · exact ⟨s0, by simpa only [aLookup_aUpdate_ne _ het] using hs0, hid0⟩
  · intro t ht
    obtain ⟨e, he, hesnd⟩ := List.mem_map.mp ht
    exact h.mapTagsLt t (hesnd ▸ List.mem_map_of_mem Prod.snd (aDelete_mem he))
  · simpa only [aUpdate_keys] using h.elemTagsLt

theorem inv_gcRun {p : SessionManager} (now : Int) (h : Inv p) :
    Inv (gcRun p now).m := by
  induction p, now using gcRun.induct with
  | case1 p now hd =>
      rw [gcRun, if_pos hd]
      exact h
  | case2 p now hd ho =>
      rw [gcRun, if_neg hd]
      split
      · exact h
      · next tag rest heq =>
          rw [ho] at heq
          exact absurd heq (by simp)
  | case3 p now hd tag rest ho s hfut =>
      rw [gcRun, if_neg hd]
      split
      · next heq =>
          rw [ho] at heq
          exact absurd heq (by simp)
      · next tag2 rest2 heq =>
          rw [ho] at heq
          injection heq with h1 h2
          subst h1; subst h2
          rw [if_pos hfut]
          exact h
  | case4 p now hd tag rest ho s hfut ih =>
      rw [gcRun, if_neg hd]
      split
      · next heq =>
          rw [ho] at heq
          exact absurd heq (by simp)
      · next tag2 rest2 heq =>
          rw [ho] at heq
          injection heq with h1 h2
          subst h1; subst h2
          rw [if_neg hfut]
          exact ih (inv_evict h ho)

/-! ### Shapes of the operations' result states -/

theorem newSessionStore_ok {reg : Registry} {tn : String} {now : Int}
    {s0 : SessionStore} (h : newSessionStore reg tn now = .ok s0) :
    s0 = newMemStore now := by
  unfold newSessionStore at h
  split at h
  · injection h with h; exact h.symm
  · cases h

theorem getSession_shape {reg : Registry} {p : SessionManager}
    {rc : Option String} {sa : String} {gid : Option String} {now : Int}
    {r : GetSessionRes} (h : GetSession reg p rc sa gid now = .ok r) :
    (r.m = p ∧ r.session = none) ∨
    (∃ sid tag, aLookup p.sessions sid = some tag ∧ r.m = touch p tag now ∧
      r.session = some (((aLookup p.elems tag).getD dummyStore).activeTrue now)) ∨
    (∃ sid s, aLookup p.sessions sid = none ∧ s.id = sid ∧ s.active = now ∧
      r.m = insertSession p sid s ∧ r.session = some s) := by
  unfold GetSession at h
  cases hres : resolveSid rc sa gid with
  | inr e =>
      rw [hres] at h
      dsimp only at h
      injection h with h
      subst h
      exact Or.inl ⟨rfl, rfl⟩
  | inl sw =>
      obtain ⟨sid, w⟩ := sw
      rw [hres] at h
      dsimp only at h
      cases hlk : aLookup p.sessions sid with
      | some tag =>
          rw [hlk] at h
          dsimp only at h
          injection h with h
          subst h
          exact Or.inr (Or.inl ⟨sid, tag, hlk, rfl, rfl⟩)
      | none =>
          rw [hlk] at h
          dsimp only at h
          cases hns : newSessionStore reg p.StoreType now with
          | error e =>
              rw [hns] at h
              dsimp only at h
              injection h with h
              subst h
              exact Or.inl ⟨rfl, rfl⟩
          | ok s0 =>
              rw [hns] at h
              dsimp only at h
              by_cases hd : p.destroied
              · rw [if_pos hd] at h; cases h
              · rw [if_neg hd] at h
                injection h with h
                subst h
                refine Or.inr (Or.inr ⟨sid, s0.setId sid, hlk, rfl, ?_, rfl, rfl⟩)
                rw [newSessionStore_ok hns]
                rfl

theorem getSessionById_shape {reg : Registry} {p : SessionManager}
    {sid : String} {now : Int} {res : ByIdRes}
    (h : GetSessionById reg p sid now = .ok res) :
    (res.m = p ∧ res.session = none) ∨
    (∃ tag, aLookup p.sessions sid = some tag ∧ res.m = touch p tag now ∧
      res.session = some (((aLookup p.elems tag).getD dummyStore).activeTrue now)) ∨
    (∃ s, aLookup p.sessions sid = none ∧ s.id = sid ∧ s.active = now ∧
      res.m = insertSession p sid s ∧ res.session = some s) := by
  unfold GetSessionById at h
  by_cases hsid : sid = ""
  · rw [if_pos hsid] at h
    injection h with h
    subst h
    exact Or.inl ⟨rfl, rfl⟩
  · rw [if_neg hsid] at h
    cases hlk : aLookup p.sessions sid with
    | some tag =>
        rw [hlk] at h
        dsimp only at h
        injection h with h
        subst h
        exact Or.inr (Or.inl ⟨tag, rfl, rfl, rfl⟩)
    | none =>
        rw [hlk] at h
        dsimp only at h
        cases hns : newSessionStore reg p.StoreType now with
        | error e =>
            rw [hns] at h
            dsimp only at h
            injection h with h
            subst h
            exact Or.inl ⟨rfl, rfl⟩
        | ok s0 =>
            rw [hns] at h
            dsimp only at h
            by_cases hd : p.destroied
            · rw [if_pos hd] at h; cases h
            · rw [if_neg hd] at h
              injection h with h
              subst h
              refine Or.inr (Or.inr ⟨s0.setId sid, rfl, rfl, ?_, rfl, rfl⟩)
              rw [newSessionStore_ok hns]
              rfl

theorem sessionDestroy_shape (p : SessionManager) (rc : Option String) :
    (SessionDestroy p rc).2.1 = p ∨
    ∃ tag, (SessionDestroy p rc).2.1 = releaseAt p tag := by
  unfold SessionDestroy
  cases rc with
  | none => exact Or.inl rfl
  | some v =>
      dsimp only
      split
      · exact Or.inl rfl
      · cases hlk : aLookup p.sessions ((queryUnescape v).getD "") with
        | some tag =>
            refine Or.inr ⟨tag, ?_⟩
            dsimp only
        | none =>
            refine Or.inl ?_
            dsimp only

theorem sessionDestroyById_shape (p : SessionManager) (sid : String) :
    SessionDestroyById p sid = p ∨
    ∃ tag, SessionDestroyById p sid = releaseAt p tag := by
  unfold SessionDestroyById
  cases hlk : aLookup p.sessions sid with
  | some tag => exact Or.inr ⟨tag, rfl⟩
  | none => exact Or.inl rfl

theorem sessionUpdate_shape (p : SessionManager) (sid : String) (now : Int) :
    SessionUpdate p sid now = p ∨
    ∃ tag, aLookup p.sessions sid = some tag ∧
      SessionUpdate p sid now = touch p tag now := by
  unfold SessionUpdate
  cases hlk : aLookup p.sessions sid with
  | some tag => exact Or.inr ⟨tag, rfl, rfl⟩
  | none => exact Or.inl rfl

theorem step_inv {reg : Registry} {p q : SessionManager} {now : Int}
    (h : Inv p) (hs : Step reg p now q) : Inv q := by
  cases hs with
  | getSession hg =>
      rcases getSession_shape hg with ⟨hm, -⟩ | ⟨sid, tag, hlk, hm, -⟩ |
        ⟨sid, s, hlk, hid, -, hm, -⟩
      · rw [hm]; exact h
      · rw [hm]; exact inv_touch h tag _
      · rw [hm]; exact inv_insert h hlk hid
  | getSessionById hg =>
      rcases getSessionById_shape hg with ⟨hm, -⟩ | ⟨tag, hlk, hm, -⟩ |
        ⟨s, hlk, hid, -, hm, -⟩
      · rw [hm]; exact h
      · rw [hm]; exact inv_touch h tag _
      · rw [hm]; exact inv_insert h hlk hid
  | sessionUpdate sid now1 =>
      rcases sessionUpdate_shape p sid now with hm | ⟨tag, hlk, hm⟩
      · rw [hm]; exact h
      · rw [hm]; exact inv_touch h tag _
  | sessionDestroy rc now1 =>
      rcases sessionDestroy_shape p rc with hm | ⟨tag, hm⟩
      · rw [hm]; exact h
      · rw [hm]; exact inv_release h tag
  | sessionDestroyById sid now1 =>
      rcases sessionDestroyById_shape p sid with hm | ⟨tag, hm⟩
      · rw [hm]; exact h
      · rw [hm]; exact inv_release h tag
  | gcStep now1 => exact inv_gcRun now h
  | destroy now1 => exact inv_destroy h

theorem reach_inv {reg : Registry} {init q : SessionManager}
    (h0 : Inv init) (h : Reach reg init q) : Inv q := by
  induction h with
  | refl => exact h0
  | step hr hs ih => exact step_inv ih hs

theorem inv_keys_perm {p : SessionManager} (h : Inv p) :
    (p.sessions.map Prod.fst).Perm (listIds p) := by
  have h1 : p.sessions.map Prod.fst
      = p.sessions.map fun e => (storeAt p e.2).id := by
    apply List.map_congr_left
    intro e he
    obtain ⟨s, hs, hid⟩ := h.tagStore e he
    simp [storeAt, hs, hid]
  rw [h1, show (p.sessions.map fun e => (storeAt p e.2).id)
      = (p.sessions.map Prod.snd).map (fun t => (storeAt p t).id) by
        rw [List.map_map]; rfl]
  exact h.tagsPerm.map _

/-! ### Preservation of the recency ordering -/

theorem SortedBound.relax {p : SessionManager} {t now : Int}
    (h : SortedBound p t) (hle : t ≤ now) : SortedBound p now :=
  ⟨h.1, fun a ha => le_trans (h.2 a ha) hle⟩

theorem aLookup_append_single_ne {l : List (Nat × SessionStore)} {x n : Nat}
    {s : SessionStore} (hne : x ≠ n) :
    aLookup (l ++ [(n, s)]) x = aLookup l x := by
  cases hx : aLookup l x with
  | some s0 => exact aLookup_append_left hx
  | none =>
      rw [aLookup_append_right hx]
      show (if n = x then some s else aLookup [] x) = none
      rw [if_neg (fun hc => hne hc.symm)]
      rfl

theorem active_aUpdate_release (elems : List (Nat × SessionStore)) (tag x : Nat) :
    ((aLookup (aUpdate elems tag SessionStore.Release) x).getD dummyStore).active
      = ((aLookup elems x).getD dummyStore).active := by
  by_cases hx : x = tag
  · subst hx
    rw [aLookup_aUpdate_eq]
    cases aLookup elems x <;> rfl
  · rw [aLookup_aUpdate_ne _ hx]

theorem sorted_touch {p : SessionManager} {t now : Int} (hI : Inv p)
    (hsb : SortedBound p t) (hle : t ≤ now) {tag : Nat} {s0 : SessionStore}
    (h0 : aLookup p.elems tag = some s0) :
    SortedBound (touch p tag now) now := by
  obtain ⟨hch, hbd⟩ := hsb
  by_cases htag : tag ∈ p.order
  · have horder : (touch p tag now).order = p.order.erase tag ++ [tag] := by
      simp [touch, htag]
    have helems : (touch p tag now).elems
        = aUpdate p.elems tag (fun s => s.activeTrue now) := rfl
    have hpoint : ∀ x ∈ p.order.erase tag,
        (storeAt (touch p tag now) x).active = (storeAt p x).active := by
      intro x hx
      have hxne : x ≠ tag := ((hI.orderNodup.mem_erase_iff).mp hx).1
      unfold storeAt
      rw [helems, aLookup_aUpdate_ne _ hxne]
    have hacts : actives (touch p tag now)
        = (p.order.erase tag).map (fun x => (storeAt p x).active) ++ [now] := by
      unfold actives
      rw [horder, List.map_append]
      congr 1
      · exact List.map_congr_left hpoint
      · unfold storeAt
        rw [helems]
        simp [aLookup_aUpdate_eq, h0, SessionStore.activeTrue]
    have hsubl : (p.order.erase tag).map (fun x => (storeAt p x).active)
        |>.Sublist (actives p) := (List.erase_sublist tag p.order).map _
    constructor
    · rw [hacts, List.chain'_append]
      refine ⟨hch.sublist hsubl, List.chain'_singleton _, ?_⟩
      intro x hx y hy
      have hxm : x ∈ actives p :=
        hsubl.subset (List.mem_of_mem_getLast? hx)
      have hy2 : now = y := by simpa using hy
      rw [← hy2]
      exact le_trans (hbd x hxm) hle
    · intro a ha
      rw [hacts] at ha
      rcases List.mem_append.mp ha with ha | ha
      · exact le_trans (hbd a (hsubl.subset ha)) hle
      · have : a = now := by simpa using ha
        exact le_of_eq this
  · have horder : (touch p tag now).order = p.order := by simp [touch, htag]
    have hacts : actives (touch p tag now) = actives p := by
      unfold actives
      rw [horder]
      apply List.map_congr_left
      intro x hx
      have hxne : x ≠ tag := fun hc => htag (hc ▸ hx)
      unfold storeAt
      show ((aLookup (aUpdate p.elems tag fun s => s.activeTrue now) x).getD
        dummyStore).active = _
      rw [aLookup_aUpdate_ne _ hxne]
    exact ⟨hacts ▸ hch, fun a ha => le_trans (hbd a (hacts ▸ ha)) hle⟩

theorem sorted_insert {p : SessionManager} {t now : Int} (hI : Inv p)
    (hsb : SortedBound p t) (hle : t ≤ now) {sid : String} {s : SessionStore}
    (hact : s.active = now) : SortedBound (insertSession p sid s) now := by
  obtain ⟨hch, hbd⟩ := hsb
  have horder : (insertSession p sid s).order = p.order ++ [p.nextTag] := rfl
  have helems : (insertSession p sid s).elems = p.elems ++ [(p.nextTag, s)] := rfl
  have hacts : actives (insertSession p sid s) = actives p ++ [now] := by
    unfold actives
    rw [horder, List.map_append]
    congr 1
    · apply List.map_congr_left
      intro x hx
      have hxne : x ≠ p.nextTag := Nat.ne_of_lt (hI.orderTagsLt x hx)
      unfold storeAt
      rw [helems, aLookup_append_single_ne hxne]
    · simp only [List.map_cons, List.map_nil]
      unfold storeAt
      rw [show (insertSession p sid s).elems = p.elems ++ [(p.nextTag, s)] from rfl,
        aLookup_append_right
          (aLookup_eq_none.mpr fun hc => lt_irrefl _ (hI.elemTagsLt _ hc))]
      simp [aLookup, hact]
  constructor
  · rw [hacts, List.chain'_append]
    refine ⟨hch, List.chain'_singleton _, ?_⟩
    intro x hx y hy
    have hy2 : now = y := by simpa using hy
    rw [← hy2]
    exact le_trans (hbd x (List.mem_of_mem_getLast? hx)) hle
  · intro a ha
    rw [hacts] at ha
    rcases List.mem_append.mp ha with ha | ha
    · exact le_trans (hbd a ha) hle
    · have : a = now := by simpa using ha
      exact le_of_eq this

theorem actives_releaseAt (p : SessionManager) (tag : Nat) :
    actives (releaseAt p tag) = actives p := by
  unfold actives
  apply List.map_congr_left
  intro x hx
  unfold storeAt
  show ((aLookup (aUpdate p.elems tag SessionStore.Release) x).getD
    dummyStore).active = _
  rw [active_aUpdate_release]

theorem sorted_release {p : SessionManager} {t now : Int} (tag : Nat)
    (hsb : SortedBound p t) (hle : t ≤ now) :
    SortedBound (releaseAt p tag) now := by
  constructor
  · rw [actives_releaseAt]
    exact hsb.1
  · rw [actives_releaseAt]
    intro a ha
    exact le_trans (hsb.2 a ha) hle

theorem sorted_evict {p : SessionManager} {t : Int} {tag : Nat} {rest : List Nat}
    (hsb : SortedBound p t) (ho : p.order = tag :: rest) :
    SortedBound
      { p with
        elems := aUpdate p.elems tag SessionStore.Release,
        sessions := aDelete p.sessions ((aLookup p.elems tag).getD dummyStore).id,
        order := rest } t := by
  obtain ⟨hch, hbd⟩ := hsb
  have hacts : actives
      { p with
        elems := aUpdate p.elems tag SessionStore.Release,
        sessions := aDelete p.sessions ((aLookup p.elems tag).getD dummyStore).id,
        order := rest } = rest.map fun x => (storeAt p x).active := by
    unfold actives
    apply List.map_congr_left
    intro x hx
    unfold storeAt
    exact active_aUpdate_release p.elems tag x
  have hacts_p : actives p = (storeAt p tag).active :: rest.map fun x => (storeAt p x).active := by
    unfold actives
    rw [ho, List.map_cons]
  constructor
  · rw [hacts]
    have h2 := hch
    rw [hacts_p] at h2
    exact (List.chain'_cons'.mp h2).2
  · rw [hacts]
    intro a ha
    apply hbd
    rw [hacts_p]
    exact List.mem_cons_of_mem _ ha

theorem sorted_gcRun {p : SessionManager} {t now : Int} (hI : Inv p)
    (hsb : SortedBound p t) (hle : t ≤ now) :
    SortedBound (gcRun p now).m now := by
  induction p, now using gcRun.induct with
  | case1 p now hd =>
      rw [gcRun, if_pos hd]
      exact hsb.relax hle
  | case2 p now hd ho =>
      rw [gcRun, if_neg hd]
      split
      · exact hsb.relax hle
      · next tag rest heq =>
          rw [ho] at heq
          exact absurd heq (by simp)
  | case3 p now hd tag rest ho s hfut =>
      rw [gcRun, if_neg hd]
      split
      · next heq =>
          rw [ho] at heq
          exact absurd heq (by simp)
      · next tag2 rest2 heq =>
          rw [ho] at heq
          injection heq with h1 h2
          subst h1; subst h2
          rw [if_pos hfut]
          exact hsb.relax hle
  | case4 p now hd tag rest ho s hfut ih =>
      rw [gcRun, if_neg hd]
      split
      · next heq =>
          rw [ho] at heq
          exact absurd heq (by simp)
      · next tag2 rest2 heq =>
          rw [ho] at heq
          injection heq with h1 h2
          subst h1; subst h2
          rw [if_neg hfut]
          exact ih (inv_evict hI ho) (sorted_evict hsb ho) hle

theorem step_sorted {reg : Registry} {p q : SessionManager} {t now : Int}
    (hI : Inv p) (hsb : SortedBound p t) (hle : t ≤ now)
    (hs : Step reg p now q) : SortedBound q now := by
  cases hs with
  | getSession hg =>
      rcases getSession_shape hg with ⟨hm, -⟩ | ⟨sid, tag, hlk, hm, -⟩ |
        ⟨sid, s, hlk, hid, hsa, hm, -⟩
      · rw [hm]; exact hsb.relax hle
      · rw [hm]
        obtain ⟨s0, h0, -⟩ := hI.tagStore _ (aLookup_mem hlk)
        exact sorted_touch hI hsb hle h0
      · rw [hm]; exact sorted_insert hI hsb hle hsa
  | getSessionById hg =>
      rcases getSessionById_shape hg with ⟨hm, -⟩ | ⟨tag, hlk, hm, -⟩ |
        ⟨s, hlk, hid, hsa, hm, -⟩
      · rw [hm]; exact hsb.relax hle
      · rw [hm]
        obtain ⟨s0, h0, -⟩ := hI.tagStore _ (aLookup_mem hlk)
        exact sorted_touch hI hsb hle h0
      · rw [hm]; exact sorted_insert hI hsb hle hsa
  | sessionUpdate sid now1 =>
      rcases sessionUpdate_shape p sid now with hm | ⟨tag, hlk, hm⟩
      · rw [hm]; exact hsb.relax hle
      · rw [hm]
        obtain ⟨s0, h0, -⟩ := hI.tagStore _ (aLookup_mem hlk)
        exact sorted_touch hI hsb hle h0
  | sessionDestroy rc now1 =>
      rcases sessionDestroy_shape p rc with hm | ⟨tag, hm⟩
      · rw [hm]; exact hsb.relax hle
      · rw [hm]; exact sorted_release tag hsb hle
  | sessionDestroyById sid now1 =>
      rcases sessionDestroyById_shape p sid with hm | ⟨tag, hm⟩
      · rw [hm]; exact hsb.relax hle
      · rw [hm]; exact sorted_release tag hsb hle
  | gcStep now1 => exact sorted_gcRun hI hsb hle
  | destroy now1 =>
      constructor
      · show List.Chain' _ (actives (Destroy p))
        simp [actives, Destroy]
      · intro a ha
        simp [actives, Destroy] at ha

/-! ### Unfolding equations for concrete gc runs -/

theorem gcRun_destroyed {p : SessionManager} (now : Int)
    (hd : p.destroied = true) :
    gcRun p now = { m := p, sleep := 10, released := [] } := by
  rw [gcRun, if_pos hd]

theorem gcRun_empty {p : SessionManager} (now : Int) (hd : p.destroied = false)
    (ho : p.order = []) :
    gcRun p now = { m := p, sleep := 10, released := [] } := by
  rw [gcRun, if_neg (by simp [hd])]
  split
  · rfl
  · next tag rest heq =>
      rw [ho] at heq
      exact absurd heq (by simp)

theorem gcRun_future {p : SessionManager} {tag : Nat} {rest : List Nat}
    (now : Int) (hd : p.destroied = false) (ho : p.order = tag :: rest)
    (hfut : ((aLookup p.elems tag).getD dummyStore).active + p.IdleTime > now) :
    gcRun p now =
      { m := p,
        sleep := ((aLookup p.elems tag).getD dummyStore).active + p.IdleTime - now,
        released := [] } := by
  rw [gcRun, if_neg (by simp [hd])]
  split
  · next heq =>
      rw [ho] at heq
      exact absurd heq (by simp)
  · next tag2 rest2 heq =>
      rw [ho] at heq
      injection heq with h1 h2
      subst h1; subst h2
      rw [if_pos hfut]

theorem gcRun_evict {p : SessionManager} {tag : Nat} {rest : List Nat}
    (now : Int) (hd : p.destroied = false) (ho : p.order = tag :: rest)
    (hpast : ¬ ((aLookup p.elems tag).getD dummyStore).active + p.IdleTime > now) :
    gcRun p now =
      { m := (gcRun { p with
          elems := aUpdate p.elems tag SessionStore.Release,
          sessions := aDelete p.sessions ((aLookup p.elems tag).getD dummyStore).id,
          order := rest } now).m,
        sleep := (gcRun { p with
          elems := aUpdate p.elems tag SessionStore.Release,
          sessions := aDelete p.sessions ((aLookup p.elems tag).getD dummyStore).id,
          order := rest } now).sleep,
        released := (aLookup p.elems tag).getD dummyStore ::
          (gcRun { p with
            elems := aUpdate p.elems tag SessionStore.Release,
            sessions := aDelete p.sessions ((aLookup p.elems tag).getD dummyStore).id,
            order := rest } now).released } := by
  rw [gcRun, if_neg (by simp [hd])]
  split
  · next heq =>
      rw [ho] at heq
      exact absurd heq (by simp)
  · next tag2 rest2 heq =>
      rw [ho] at heq
      injection heq with h1 h2
      subst h1; subst h2
      rw [if_neg hpast]

/-! ### Reachability with sorted recency -/

theorem sortedBound_new (d st cn : String) (it ce t0 : Int) :
    SortedBound (newSessionManager d st cn it ce) t0 := by
  constructor
  · simp [actives, newSessionManager]
  · intro a ha
    simp [actives, newSessionManager] at ha

theorem reachT_inv_sorted {reg : Registry} {init q : SessionManager}
    {t0 t : Int} (hI : Inv init) (hs0 : SortedBound init t0)
    (h : ReachT reg init t0 q t) : Inv q ∧ SortedBound q t := by
  induction h with
  | refl => exact ⟨hI, hs0⟩
  | step hr hle hstep ih =>
      exact ⟨step_inv ih.1 hstep, step_sorted ih.1 ih.2 hle hstep⟩

/-! ### The accessed session ends at the back of the list -/

theorem backStore_touch {p : SessionManager} (hI : Inv p) {sid : String}
    {tag : Nat} (hlk : aLookup p.sessions sid = some tag) (now : Int) :
    backStore (touch p tag now)
      = some (((aLookup p.elems tag).getD dummyStore).activeTrue now) := by
  have hmem : (sid, tag) ∈ p.sessions := aLookup_mem hlk
  obtain ⟨s0, h0, -⟩ := hI.tagStore _ hmem
  have htag : tag ∈ p.order :=
    hI.tagsPerm.mem_iff.mp (List.mem_map_of_mem Prod.snd hmem)
  have horder : (touch p tag now).order = p.order.erase tag ++ [tag] := by
    simp [touch, htag]
  unfold backStore
  rw [horder, List.getLast?_concat]
  show aLookup (touch p tag now).elems tag = _
  rw [show (touch p tag now).elems
      = aUpdate p.elems tag (fun s => s.activeTrue now) from rfl,
    aLookup_aUpdate_eq, h0]
  rfl

theorem backStore_insert {p : SessionManager} (hI : Inv p) (sid : String)
    (s : SessionStore) : backStore (insertSession p sid s) = some s := by
  unfold backStore
  rw [show (insertSession p sid s).order = p.order ++ [p.nextTag] from rfl,
    List.getLast?_concat]
  show aLookup (insertSession p sid s).elems p.nextTag = some s
  rw [show (insertSession p sid s).elems = p.elems ++ [(p.nextTag, s)] from rfl,
    aLookup_append_right
      (aLookup_eq_none.mpr fun hc => lt_irrefl _ (hI.elemTagsLt _ hc))]
  simp [aLookup]

theorem getSession_back {reg : Registry} {p : SessionManager}
    {rc : Option String} {sa : String} {gid : Option String} {now : Int}
    {r : GetSessionRes} (hI : Inv p) (h : GetSession reg p rc sa gid now = .ok r)
    {s : SessionStore} (hs : r.session = some s) : backStore r.m = some s := by
  rcases getSession_shape h with ⟨hm, hnone⟩ | ⟨sid, tag, hlk, hm, hsess⟩ |
    ⟨sid, s2, hlk, hid, hact, hm, hsess⟩
  · rw [hs] at hnone; cases hnone
  · rw [hs] at hsess
    injection hsess with h2
    rw [hm, backStore_touch hI hlk now, ← h2]
  · rw [hs] at hsess
    injection hsess with h2
    rw [hm, backStore_insert hI sid s2, ← h2]

theorem getSessionById_back {reg : Registry} {p : SessionManager}
    {sid : String} {now : Int} {res : ByIdRes} (hI : Inv p)
    (h : GetSessionById reg p sid now = .ok res) {s : SessionStore}
    (hs : res.session = some s) : backStore res.m = some s := by
  rcases getSessionById_shape h with ⟨hm, hnone⟩ | ⟨tag, hlk, hm, hsess⟩ |
    ⟨s2, hlk, hid, hact, hm, hsess⟩
  · rw [hs] at hnone; cases hnone
  · rw [hs] at hsess
    injection hsess with h2
    rw [hm, backStore_touch hI hlk now, ← h2]
  · rw [hs] at hsess
    injection hsess with h2
    rw [hm, backStore_insert hI sid s2, ← h2]

theorem sessionUpdate_back {p : SessionManager} {sid : String} {tag : Nat}
    (hI : Inv p) (hlk : aLookup p.sessions sid = some tag) (now : Int) :
    ∃ s, backStore (SessionUpdate p sid now) = some s ∧ s.id = sid := by
  have hm : SessionUpdate p sid now = touch p tag now := by
    unfold SessionUpdate
    rw [hlk]
  obtain ⟨s0, h0, hid0⟩ := hI.tagStore _ (aLookup_mem hlk)
  refine ⟨s0.activeTrue now, ?_, hid0⟩
  rw [hm, backStore_touch hI hlk now, h0]
  rfl

theorem getSessionById_found {reg : Registry} {p : SessionManager}
    {sid : String} {tag : Nat} (now : Int) (hsid : sid ≠ "")
    (hlk : aLookup p.sessions sid = some tag) :
    GetSessionById reg p sid now = .ok
      { session := some (((aLookup p.elems tag).getD dummyStore).activeTrue now),
        err := none, m := touch p tag now } := by
  unfold GetSessionById
  rw [if_neg hsid, hlk]

/-! ### Remaining helper lemmas -/

theorem aLookup_aInsert_self {κ α : Type} [DecidableEq κ]
    (l : List (κ × α)) (k : κ) (v : α) :
    aLookup (aInsert l k v) k = some v := by
  induction l with
  | nil => simp [aInsert, aLookup]
  | cons e rest ih =>
      obtain ⟨k1, v1⟩ := e
      by_cases hk : k1 = k
      · subst hk
        simp [aInsert, aLookup]
      · simp [aInsert, aLookup, hk, ih]

theorem resolveFallback_nonempty {sa : String} (gid : Option String)
    (hsa : sa ≠ "") : resolveFallback sa gid = .inl (sa, true) := by
  unfold resolveFallback
  rw [if_neg hsa]

theorem resolveFallback_gen {gid : Option String} {g : String}
    (hg : gid = some g) : resolveFallback "" gid = .inl (g, true) := by
  unfold resolveFallback
  rw [if_pos rfl, hg]

theorem resolveFallback_writes {sa : String} {gid : Option String}
    {s : String} {w : Bool} (h : resolveFallback sa gid = .inl (s, w)) :
    w = true := by
  unfold resolveFallback at h
  split at h
  · split at h
    · injection h with h2
      exact (congrArg Prod.snd h2).symm
    · cases h
  · injection h with h2
    exact (congrArg Prod.snd h2).symm

/-! ### The claims -/

/-- C1 (confirmed): every session evicted by a `gc` run at time `now`
satisfies `last-active + IdleTime ≤ now`, i.e. its release time is at
least its last-active time plus the idle timeout — a session is never
reclaimed early. -/
theorem c1_gc_never_releases_early {p : SessionManager} {now : Int}
    {s : SessionStore} (hs : s ∈ (gcRun p now).released) :
    s.active + p.IdleTime ≤ now := by
  induction p, now using gcRun.induct with
  | case1 p now hd =>
      rw [gcRun_destroyed now hd] at hs
      simp at hs
  | case2 p now hd ho =>
      rw [gcRun_empty now (by simpa using hd) ho] at hs
      simp at hs
  | case3 p now hd tag rest ho sf hfut =>
      rw [gcRun_future now (by simpa using hd) ho hfut] at hs
      simp at hs
  | case4 p now hd tag rest ho sf hfut ih =>
      rw [gcRun_evict now (by simpa using hd) ho hfut] at hs
      rcases List.mem_cons.mp hs with h1 | h1
      · rw [h1]
        exact not_lt.mp hfut
      · exact ih h1

/-- C1 witness: the session with last-active time 100 under idle timeout
60 is evicted by the run at time 161, and 100 + 60 ≤ 161. -/
theorem c1_gc_never_releases_early_witness :
    storeW1 ∈ (gcRun mgrW1 161).released ∧
    storeW1.active + mgrW1.IdleTime ≤ 161 := by
  have hmem : storeW1 ∈ (gcRun mgrW1 161).released := by
    rw [@gcRun_evict mgrW1 0 [] 161 rfl rfl (by decide)]
    exact List.mem_cons_self _ _
  exact ⟨hmem, c1_gc_never_releases_early hmem⟩

/-- C2 counterexample: on a live manager whose recency list is empty the
gc run still schedules a follow-up run after the default 10-second sleep,
refuting the claim that no further run is scheduled after an empty-list
scan. -/
theorem c2_empty_scan_still_reschedules :
    gcReschedule mgrW0 0 ≠ none ∧ gcReschedule mgrW0 0 = some 10 := by
  have h : gcReschedule mgrW0 0 = some 10 := by
    unfold gcReschedule
    rw [@gcRun_empty mgrW0 0 rfl rfl]
    rfl
  refine ⟨?_, h⟩
  rw [h]
  simp

/-- C2 (amended): when the background loop observes an empty recency list
it evicts nothing and breaks out of the scan, but — contrary to the claim —
it still reschedules itself to run again after the default sleep of 10
seconds; only the destroyed flag stops rescheduling. -/
theorem c2_empty_scan_default_sleep {p : SessionManager} (now : Int)
    (hd : p.destroied = false) (ho : p.order = []) :
    gcRun p now = { m := p, sleep := 10, released := [] } ∧
    gcReschedule p now = some 10 := by
  refine ⟨gcRun_empty now hd ho, ?_⟩
  unfold gcReschedule
  rw [gcRun_empty now hd ho]
  simp [hd]

/-- C2 witness: the amended behaviour on a fresh (empty) manager. -/
theorem c2_empty_scan_default_sleep_witness :
    gcRun mgrW0 5 = { m := mgrW0, sleep := 10, released := [] } ∧
    gcReschedule mgrW0 5 = some 10 :=
  c2_empty_scan_default_sleep 5 rfl rfl

/-- C3 counterexample: after `Destroy()` the sessions map and recency list
are nil, so `GetSessionById` with an unknown identifier panics on the
nil-map insert instead of being a no-op or failing gracefully. -/
theorem c3_getSessionById_after_destroy_panics :
    (GetSessionById regMem (Destroy mgrW0) "abc" 0).isPanic = true := by
  decide

/-- C3 (amended): after `Destroy()` the background loop schedules no
further run and `SessionUpdate`, `SessionDestroy`, `SessionDestroyById`
are no-ops on the manager state; but — contrary to the claim — `GetSession`
and `GetSessionById` panic whenever they reach session creation (a
non-empty identifier whose store type is registered), because the sessions
map and recency list have been set to nil. -/
theorem c3_after_destroy_behaviour (p : SessionManager) (reg : Registry)
    (sid : String) (rc : Option String) (gid : Option String) (now : Int) :
    gcReschedule (Destroy p) now = none ∧
    SessionUpdate (Destroy p) sid now = Destroy p ∧
    SessionDestroyById (Destroy p) sid = Destroy p ∧
    (SessionDestroy (Destroy p) rc).2.1 = Destroy p ∧
    (sid ≠ "" → (aLookup reg p.StoreType).isSome = true →
      (GetSessionById reg (Destroy p) sid now).isPanic = true) ∧
    (sid ≠ "" → (aLookup reg p.StoreType).isSome = true →
      (GetSession reg (Destroy p) none sid gid now).isPanic = true) := by
  refine ⟨?_, ?_, ?_, ?_, ?_, ?_⟩
  · unfold gcReschedule
    rw [gcRun_destroyed now rfl]
    rfl
  · rfl
  · rfl
  · cases rc with
    | none => rfl
    | some v =>
        unfold SessionDestroy
        dsimp only
        split
        · rfl
        · rfl
  · intro hsid hreg
    unfold GetSessionById
    rw [if_neg hsid]
    rw [show aLookup (Destroy p).sessions sid = none from rfl]
    rw [show newSessionStore reg (Destroy p).StoreType now
        = Except.ok (newMemStore now) from by
      unfold newSessionStore
      rw [if_pos (show (aLookup reg (Destroy p).StoreType).isSome = true from hreg)]]
    rfl
  · intro hsid hreg
    unfold GetSession
    rw [show resolveSid none sid gid = Sum.inl (sid, true) from
      resolveFallback_nonempty gid hsid]
    dsimp only
    rw [show aLookup (Destroy p).sessions sid = none from rfl]
    rw [show newSessionStore reg (Destroy p).StoreType now
        = Except.ok (newMemStore now) from by
      unfold newSessionStore
      rw [if_pos (show (aLookup reg (Destroy p).StoreType).isSome = true from hreg)]]
    rfl

/-- C3 witness: the amended behaviour at a concrete destroyed manager. -/
theorem c3_after_destroy_behaviour_witness :
    gcReschedule (Destroy mgrW1) 7 = none ∧
    (GetSessionById regMem (Destroy mgrW1) "zzz" 7).isPanic = true ∧
    (GetSession regMem (Destroy mgrW1) none "zzz" none 7).isPanic = true := by
  have h := c3_after_destroy_behaviour mgrW1 regMem "zzz" (some "abc") none 7
  exact ⟨h.1, h.2.2.2.2.1 (by decide) (by decide),
    h.2.2.2.2.2 (by decide) (by decide)⟩

/-- C4 (confirmed): in every manager state reachable from a fresh manager
by any sequence of operations, the set of identifier keys of the sessions
map equals the set of identifiers of the stores held by the recency
list. -/
theorem c4_bijection_invariant (reg : Registry) (d st cn : String)
    (it ce : Int) {q : SessionManager}
    (h : Reach reg (newSessionManager d st cn it ce) q) (i : String) :
    i ∈ q.sessions.map Prod.fst ↔ i ∈ listIds q :=
  (inv_keys_perm (reach_inv (inv_new d st cn it ce) h)).mem_iff

/-- C4 witness: the bijection at the state reached by creating one
session. -/
theorem c4_bijection_invariant_witness :
    "abc" ∈ mgrW1.sessions.map Prod.fst ↔ "abc" ∈ listIds mgrW1 :=
  c4_bijection_invariant regMem "d" "mem" "sid" 60 (-1)
    (Reach.step Reach.refl
      (Step.getSessionById
        (show GetSessionById regMem mgrW0 "abc" 100
            = Outcome.ok { session := some storeW1, err := none, m := mgrW1 }
          by decide))) "abc"

/-- C5 (confirmed): in every reachable manager state the recency list is
sorted by ascending last-active time, and any access — `GetSession` or
`GetSessionById` (lookup or creation) returning a session, or a
`SessionUpdate` on a present identifier — leaves the accessed session's
entry at the back of the recency list.  The post-access state is itself
reachable, so its list is again sorted. -/
theorem c5_recency_ordering (reg : Registry) (d st cn : String)
    (it ce t0 : Int) {q : SessionManager} {t : Int}
    (h : ReachT reg (newSessionManager d st cn it ce) t0 q t) :
    List.Chain' (· ≤ ·) (actives q) ∧
    (∀ (rc : Option String) (sa : String) (gid : Option String) (now : Int)
      (r : GetSessionRes) (s : SessionStore),
      GetSession reg q rc sa gid now = .ok r → r.session = some s →
      backStore r.m = some s) ∧
    (∀ (sid : String) (now : Int) (res : ByIdRes) (s : SessionStore),
      GetSessionById reg q sid now = .ok res → res.session = some s →
      backStore res.m = some s) ∧
    (∀ (sid : String) (tag : Nat) (now : Int),
      aLookup q.sessions sid = some tag →
      ∃ s, backStore (SessionUpdate q sid now) = some s ∧ s.id = sid) := by
  obtain ⟨hI, hsb⟩ := reachT_inv_sorted (inv_new d st cn it ce)
    (sortedBound_new d st cn it ce t0) h
  refine ⟨hsb.1, ?_, ?_, ?_⟩
  · intro rc sa gid now r s hok hsess
    exact getSession_back hI hok hsess
  · intro sid now res s hok hsess
    exact getSessionById_back hI hok hsess
  · intro sid tag now hlk
    exact sessionUpdate_back hI hlk now

/-- C5 witness: the session created on a fresh manager sits at the back of
the recency list. -/
theorem c5_recency_ordering_witness : backStore mgrW1 = some storeW1 :=
  (c5_recency_ordering regMem "d" "mem" "sid" 60 (-1) 0 ReachT.refl).2.2.1
    "abc" 100 { session := some storeW1, err := none, m := mgrW1 } storeW1
    (by decide) (by decide)

/-- C6 (confirmed): `GetSession` resolves its working identifier in this
order — a non-empty cookie value is URL-unescaped and used even when a
caller identifier is supplied; otherwise the non-empty caller identifier;
otherwise the generated random identifier — and the response-cookie flag
is set exactly in the no-cookie (absent or empty) cases. -/
theorem c6_identifier_resolution (sa : String) (gid : Option String)
    (rc : Option String) :
    (∀ v u, v ≠ "" → queryUnescape v = some u →
      resolveSid (some v) sa gid = Sum.inl (u, false)) ∧
    (sa ≠ "" →
      resolveSid none sa gid = Sum.inl (sa, true) ∧
      resolveSid (some "") sa gid = Sum.inl (sa, true)) ∧
    (∀ g, gid = some g →
      resolveSid none "" gid = Sum.inl (g, true) ∧
      resolveSid (some "") "" gid = Sum.inl (g, true)) ∧
    (∀ s w, resolveSid rc sa gid = Sum.inl (s, w) →
      (w = true ↔ rc = none ∨ rc = some "")) := by
  refine ⟨?_, ?_, ?_, ?_⟩
  · intro v u hv hu
    unfold resolveSid
    dsimp only
    rw [if_neg hv, hu]
  · intro hsa
    exact ⟨resolveFallback_nonempty gid hsa, resolveFallback_nonempty gid hsa⟩
  · intro g hg
    exact ⟨resolveFallback_gen hg, resolveFallback_gen hg⟩
  · intro s w hres
    cases rc with
    | none =>
        refine ⟨fun _ => Or.inl rfl, fun _ => ?_⟩
        exact resolveFallback_writes hres
    | some v =>
        by_cases hv : v = ""
        · subst hv
          refine ⟨fun _ => Or.inr rfl, fun _ => ?_⟩
          unfold resolveSid at hres
          dsimp only at hres
          rw [if_pos rfl] at hres
          exact resolveFallback_writes hres
        · unfold resolveSid at hres
          dsimp only at hres
          rw [if_neg hv] at hres
          constructor
          · intro hw
            exfalso
            cases hq : queryUnescape v with
            | some u =>
                rw [hq] at hres
                injection hres with h2
                have h3 : false = w := congrArg Prod.snd h2
                rw [hw] at h3
                exact absurd h3 (by decide)
            | none =>
                rw [hq] at hres
                cases hres
          · intro hc
            rcases hc with hc | hc
            · cases hc
            · injection hc with hc2
              exact absurd hc2 hv

/-- C6 witness: a percent-escaped cookie wins over the caller identifier;
without a cookie the caller identifier is used. -/
theorem c6_identifier_resolution_witness :
    resolveSid (some "a%20b") "xyz" (some "gen") = Sum.inl ("a b", false) ∧
    resolveSid none "xyz" (some "gen") = Sum.inl ("xyz", true) :=
  ⟨(c6_identifier_resolution "xyz" (some "gen") (some "a%20b")).1 "a%20b" "a b"
      (by decide) (by decide),
    ((c6_identifier_resolution "xyz" (some "gen") none).2.1 (by decide)).1⟩

/-- C7 (confirmed): `SessionDestroy` is a no-op returning the empty
identifier when the cookie is absent or empty; with a non-empty cookie it
always writes the clearing cookie (empty value, immediate expiry,
`MaxAge -1`) whether or not a session exists, returns the unescaped
identifier, and releases the matching session's store when present. -/
theorem c7_session_destroy_contract (p : SessionManager) :
    SessionDestroy p none = ("", p, []) ∧
    SessionDestroy p (some "") = ("", p, []) ∧
    (∀ v, v ≠ "" →
      (SessionDestroy p (some v)).2.2 = [clearingCookie p] ∧
      (clearingCookie p).value = "" ∧ (clearingCookie p).maxAge = -1 ∧
      (clearingCookie p).hasExpires = true ∧ (clearingCookie p).httpOnly = true) ∧
    (∀ v u, v ≠ "" → queryUnescape v = some u →
      (SessionDestroy p (some v)).1 = u) ∧
    (∀ v u tag s, v ≠ "" → queryUnescape v = some u →
      aLookup p.sessions u = some tag → aLookup p.elems tag = some s →
      aLookup (SessionDestroy p (some v)).2.1.elems tag = some s.Release) ∧
    (∀ v u, v ≠ "" → queryUnescape v = some u →
      aLookup p.sessions u = none → (SessionDestroy p (some v)).2.1 = p) := by
  refine ⟨rfl, rfl, ?_, ?_, ?_, ?_⟩
  · intro v hv
    unfold SessionDestroy
    dsimp only
    rw [if_neg hv]
    exact ⟨rfl, rfl, rfl, rfl, rfl⟩
  · intro v u hv hu
    unfold SessionDestroy
    dsimp only
    rw [if_neg hv]
    show (queryUnescape v).getD "" = u
    rw [hu]
    rfl
  · intro v u tag s hv hu hlk hstore
    unfold SessionDestroy
    dsimp only
    rw [if_neg hv]
    show aLookup (match aLookup p.sessions ((queryUnescape v).getD "") with
      | some tag2 => releaseAt p tag2
      | none => p).elems tag = some s.Release
    rw [hu]
    show aLookup (match aLookup p.sessions u with
      | some tag2 => releaseAt p tag2
      | none => p).elems tag = some s.Release
    rw [hlk]
    show aLookup (aUpdate p.elems tag SessionStore.Release) tag = some s.Release
    rw [aLookup_aUpdate_eq, hstore]
    rfl
  · intro v u hv hu hlk
    unfold SessionDestroy
    dsimp only
    rw [if_neg hv]
    show (match aLookup p.sessions ((queryUnescape v).getD "") with
      | some tag2 => releaseAt p tag2
      | none => p) = p
    rw [hu]
    show (match aLookup p.sessions u with
      | some tag2 => releaseAt p tag2
      | none => p) = p
    rw [hlk]

/-- C7 witness: destroying a present session via a plain cookie. -/
theorem c7_session_destroy_contract_witness :
    (SessionDestroy mgrW1 (some "abc")).1 = "abc" ∧
    (SessionDestroy mgrW1 (some "abc")).2.2 = [clearingCookie mgrW1] ∧
    aLookup (SessionDestroy mgrW1 (some "abc")).2.1.elems 0
      = some storeW1.Release ∧
    SessionDestroy mgrW1 none = ("", mgrW1, []) := by
  have h := c7_session_destroy_contract mgrW1
  exact ⟨h.2.2.2.1 "abc" "abc" (by decide) (by decide),
    (h.2.2.1 "abc" (by decide)).1,
    h.2.2.2.2.1 "abc" "abc" 0 storeW1 (by decide) (by decide) (by decide)
      (by decide),
    h.1⟩

/-- C8 (confirmed): `RegisterSessionStore` panics on a nil factory and on
a duplicate name, and otherwise adds the factory to the registry under the
given name. -/
theorem c8_register_session_store (stores : Registry) (name : String)
    (one : Option Factory) :
    (one = none →
      RegisterSessionStore stores name one
        = .panicked "Register SessionStore nil") ∧
    (∀ f, one = some f → name ∈ stores.map Prod.fst →
      RegisterSessionStore stores name one
        = .panicked ("Register SessionStore duplicate for " ++ name)) ∧
    (∀ f, one = some f → name ∉ stores.map Prod.fst →
      RegisterSessionStore stores name one = .ok (aInsert stores name f) ∧
      aLookup (aInsert stores name f) name = some f) := by
  refine ⟨?_, ?_, ?_⟩
  · intro h
    subst h
    rfl
  · intro f h hdup
    subst h
    unfold RegisterSessionStore
    dsimp only
    rw [if_pos (aLookup_isSome.mpr hdup)]
  · intro f h hnew
    subst h
    unfold RegisterSessionStore
    dsimp only
    rw [if_neg fun hc => hnew (aLookup_isSome.mp hc)]
    exact ⟨rfl, aLookup_aInsert_self stores name f⟩

/-- C8 witness: registering the same name twice panics. -/
theorem c8_register_session_store_witness :
    RegisterSessionStore [("memory", ())] "memory" (some ())
      = Outcome.panicked "Register SessionStore duplicate for memory" :=
  (c8_register_session_store [("memory", ())] "memory" (some ())).2.1 ()
    rfl (by decide)

/-- C9 (confirmed): `SessionDestroy` and `SessionDestroyById` release the
matching store but remove nothing from the sessions map or the recency
list, so a subsequent `GetSessionById` with the same identifier returns
the already-released store object (refreshed, not recreated) and the map
is unchanged. -/
theorem c9_destroy_frame_effect (reg : Registry) (p : SessionManager)
    (sid : String) (now : Int) {tag : Nat} {s : SessionStore}
    (hsid : sid ≠ "") (hlk : aLookup p.sessions sid = some tag)
    (hstore : aLookup p.elems tag = some s) :
    (SessionDestroyById p sid).sessions = p.sessions ∧
    (SessionDestroyById p sid).order = p.order ∧
    (SessionDestroyById p sid).elems.map Prod.fst = p.elems.map Prod.fst ∧
    (∀ rc, (SessionDestroy p rc).2.1.sessions = p.sessions ∧
      (SessionDestroy p rc).2.1.order = p.order) ∧
    GetSessionById reg (SessionDestroyById p sid) sid now = .ok
      { session := some { s with active := now, released := true },
        err := none, m := touch (releaseAt p tag) tag now } ∧
    (touch (releaseAt p tag) tag now).sessions = p.sessions := by
  have hd : SessionDestroyById p sid = releaseAt p tag := by
    unfold SessionDestroyById
    rw [hlk]
  refine ⟨by rw [hd]; rfl, by rw [hd]; rfl, by rw [hd]; exact aUpdate_keys _ _ _,
    ?_, ?_, rfl⟩
  · intro rc
    rcases sessionDestroy_shape p rc with hm | ⟨tag2, hm⟩
    · rw [hm]
      exact ⟨rfl, rfl⟩
    · rw [hm]
      exact ⟨rfl, rfl⟩
  · rw [hd]
    have hlk2 : aLookup (releaseAt p tag).sessions sid = some tag := hlk
    have he : aLookup (releaseAt p tag).elems tag = some s.Release := by
      show aLookup (aUpdate p.elems tag SessionStore.Release) tag = _
      rw [aLookup_aUpdate_eq, hstore]
      rfl
    have h1 := @getSessionById_found reg (releaseAt p tag) sid tag now hsid hlk2
    rw [h1, he]
    rfl

/-- C9 witness: destroy-by-id then lookup at a concrete manager. -/
theorem c9_destroy_frame_effect_witness :
    GetSessionById regMem (SessionDestroyById mgrW1 "abc") "abc" 105 = .ok
      { session := some
          { id := "abc", createTime := 100, active := 105, released := true },
        err := none, m := touch (releaseAt mgrW1 0) 0 105 } ∧
    (SessionDestroyById mgrW1 "abc").sessions = mgrW1.sessions := by
  have h := @c9_destroy_frame_effect regMem mgrW1 "abc" 105 0 storeW1
    (by decide) (by decide) (by decide)
  exact ⟨h.2.2.2.2.1, h.1⟩

/-- C10 (confirmed): `GetSessionById` with the empty identifier returns a
nil session and a nil error and leaves the manager state (sessions map and
recency list) unchanged; no store is created. -/
theorem c10_get_session_by_empty_id (reg : Registry) (p : SessionManager)
    (now : Int) :
    GetSessionById reg p "" now = .ok { session := none, err := none, m := p } := by
  unfold GetSessionById
  rw [if_pos rfl]

end Passport
